import Mathlib

/-!
Verification development for the libvirt-provider host resource accounting core.

The definitions below are a shallow embedding of the Go sources:
  internal/resources/sources/cpu.go, memory.go, pci.go (which also holds the
  Hugepages and Dummy sources), the NIC and Mellanox sources, the manager
  wrappers in pkg/resources/manager/functions.go, the durable object store in
  internal/host/store.go, and the bounded event ring in
  internal/event/machineevent.

Conventions of the embedding:
  - k8s resource.Quantity is an arbitrary-precision signed integer in the
    value range used by the code; it is embedded as Int.
  - core.ResourceList is a Go map from resource name to quantity; it is
    embedded as an association list with unique keys, read through getQ and
    written through setQ.  A Go nil list or nil map is embedded as [].
  - Methods mutating a receiver are embedded in state-passing style: they
    take the relevant fields of the receiver and return the updated fields
    together with the Go return values.
-/

abbrev RName := String

abbrev Quantity := Int

abbrev ResourceList := List (RName × Quantity)

/-- Reading a key from a Go map embedded as an association list. -/
def getQ : ResourceList → RName → Option Quantity
  | [], _ => none
  | (k, v) :: rest, n => if k = n then some v else getQ rest n

/-- Writing a key into a Go map embedded as an association list. -/
def setQ : ResourceList → RName → Quantity → ResourceList
  | [], n, q => [(n, q)]
  | (k, v) :: rest, n, q => if k = n then (n, q) :: rest else (k, v) :: setQ rest n q

/-- The two error kinds a source allocation can surface:
sources.ErrResourceNotAvailable and sources.ErrResourceMissing. -/
inductive AllocErr
  | notAvailable
  | missing
deriving DecidableEq, Repr

/-- CPU.Allocate from internal/resources/sources/cpu.go: looks up the cpu key,
opts out when absent, subtracts and fails when the result would be negative
(newCPU.Sign() == -1). State is the availableCPU field. -/
def CPU.Allocate (availableCPU : Quantity) (requiredResources : ResourceList) :
    Quantity × Except AllocErr ResourceList :=
  match getQ requiredResources "cpu" with
  | none => (availableCPU, .ok [])
  | some cpu =>
    let newCPU := availableCPU - cpu
    if newCPU < 0 then (availableCPU, .error .notAvailable)
    else (newCPU, .ok [("cpu", cpu)])

/-- CPU.Deallocate from cpu.go: adds the cpu quantity back when present. -/
def CPU.Deallocate (availableCPU : Quantity) (requiredResources : ResourceList) :
    Quantity × List RName :=
  match getQ requiredResources "cpu" with
  | none => (availableCPU, [])
  | some cpu => (availableCPU + cpu, ["cpu"])

/-- CPU.GetAvailableResources from cpu.go. -/
def CPU.GetAvailableResources (availableCPU : Quantity) : ResourceList :=
  [("cpu", availableCPU)]

/-- Memory.Allocate from internal/resources/sources/memory.go: looks up the
memory key, opts out when absent, fails when availableMemory.Cmp(mem) < 0,
otherwise subtracts. -/
def Memory.Allocate (availableMemory : Quantity) (requiredResources : ResourceList) :
    Quantity × Except AllocErr ResourceList :=
  match getQ requiredResources "memory" with
  | none => (availableMemory, .ok [])
  | some mem =>
    if availableMemory < mem then (availableMemory, .error .notAvailable)
    else (availableMemory - mem, .ok [("memory", mem)])

/-- Memory.Deallocate from memory.go. -/
def Memory.Deallocate (availableMemory : Quantity) (requiredResources : ResourceList) :
    Quantity × List RName :=
  match getQ requiredResources "memory" with
  | none => (availableMemory, [])
  | some mem => (availableMemory + mem, ["memory"])

/-- Memory.GetAvailableResources from memory.go. -/
def Memory.GetAvailableResources (availableMemory : Quantity) : ResourceList :=
  [("memory", availableMemory)]

/-- The mutable accounting fields of the Hugepages source (pci.go, third
file section: hugepages source). -/
structure HugepagesState where
  availableMemory : Quantity
  availableHugePages : Quantity
deriving DecidableEq, Repr

/-- Hugepages.Allocate: requires the memory key (opts out when absent), checks
available memory first, then requires the hugepages key (ErrResourceMissing
when absent), checks available hugepages, then subtracts both. -/
def Hugepages.Allocate (s : HugepagesState) (requiredResources : ResourceList) :
    HugepagesState × Except AllocErr ResourceList :=
  match getQ requiredResources "memory" with
  | none => (s, .ok [])
  | some mem =>
    if s.availableMemory < mem then (s, .error .notAvailable)
    else
      match getQ requiredResources "hugepages" with
      | none => (s, .error .missing)
      | some hugepages =>
        if s.availableHugePages < hugepages then (s, .error .notAvailable)
        else
          (⟨s.availableMemory - mem, s.availableHugePages - hugepages⟩,
            .ok [("memory", mem), ("hugepages", hugepages)])

/-- Hugepages.Deallocate: adds memory and hugepages back independently,
each when present. -/
def Hugepages.Deallocate (s : HugepagesState) (requiredResources : ResourceList) :
    HugepagesState × List RName :=
  let s1 :=
    match getQ requiredResources "memory" with
    | none => s
    | some mem => { s with availableMemory := s.availableMemory + mem }
  let s2 :=
    match getQ requiredResources "hugepages" with
    | none => s1
    | some hugepages => { s1 with availableHugePages := s1.availableHugePages + hugepages }
  let names :=
    (match getQ requiredResources "memory" with
      | none => ([] : List RName)
      | some _ => ["memory"]) ++
    (match getQ requiredResources "hugepages" with
      | none => ([] : List RName)
      | some _ => ["hugepages"])
  (s2, names)

/-- Hugepages.GetAvailableResources. -/
def Hugepages.GetAvailableResources (s : HugepagesState) : ResourceList :=
  [("memory", s.availableMemory), ("hugepages", s.availableHugePages)]

/-- Hugepages.Modify from pci.go (hugepages section): requires a positive
memory value, computes hugepages = ceil(memory / pageSize) and replaces
memory with hugepages * pageSize.  The Go code computes the ceiling with
math.Ceil over float64; for the positive integer operands involved that is
the exact integer ceiling (memory.toNat + pageSize - 1) / pageSize embedded
here. -/
def Hugepages.Modify (pageSize : Nat) (resources : ResourceList) :
    Except String ResourceList :=
  match getQ resources "memory" with
  | none => .error "cannot found memory in resources"
  | some memory =>
    if memory ≤ 0 then .error "invalid value of memory resource"
    else
      let hugepages : Nat := (memory.toNat + pageSize - 1) / pageSize
      let r1 := setQ resources "hugepages" (Int.ofNat hugepages)
      .ok (setQ r1 "memory" (Int.ofNat (hugepages * pageSize)))

/-- NIC.Allocate from the nic source: looks up the nic key, opts out when
absent, otherwise subtracts unconditionally.  The Go method has no error
return and performs no availability check. -/
def NIC.Allocate (availableNics : Quantity) (requiredResources : ResourceList) :
    Quantity × ResourceList :=
  match getQ requiredResources "nic" with
  | none => (availableNics, [])
  | some nic => (availableNics - nic, [("nic", nic)])

/-- NIC.Deallocate from the nic source. -/
def NIC.Deallocate (availableNics : Quantity) (requiredResources : ResourceList) :
    Quantity × List RName :=
  match getQ requiredResources "nic" with
  | none => (availableNics, [])
  | some nic => (availableNics + nic, ["nic"])

/-- NIC.GetAvailableResource from the nic source. -/
def NIC.GetAvailableResource (availableNics : Quantity) : ResourceList :=
  [("nic", availableNics)]

/-- Mellanox.Allocate from the mellanox source: prefers the mellanox key and
falls back to the nic key; subtracts unconditionally with no error return and
no availability check. -/
def Mellanox.Allocate (availableNics : Quantity) (requiredResources : ResourceList) :
    Quantity × ResourceList :=
  match getQ requiredResources "mellanox" with
  | some quantity => (availableNics - quantity, [("mellanox", quantity)])
  | none =>
    match getQ requiredResources "nic" with
    | none => (availableNics, [])
    | some nic => (availableNics - nic, [("mellanox", nic)])

/-- Mellanox.Deallocate from the mellanox source. -/
def Mellanox.Deallocate (availableNics : Quantity) (requiredResources : ResourceList) :
    Quantity × List RName :=
  match getQ requiredResources "mellanox" with
  | some quantity => (availableNics + quantity, ["mellanox"])
  | none =>
    match getQ requiredResources "nic" with
    | none => (availableNics, [])
    | some nic => (availableNics + nic, ["mellanox"])

/-- Mellanox.GetAvailableResource: reports the nic count under the mellanox
key. -/
def Mellanox.GetAvailableResource (availableNics : Quantity) : ResourceList :=
  [("mellanox", availableNics)]

example : CPU.Allocate 10 [("cpu", 3)] = (7, .ok [("cpu", 3)]) := rfl

example : CPU.Allocate 2 [("cpu", 3)] = (2, .error .notAvailable) := rfl

example : NIC.Allocate 1 [("nic", 2)] = (-1, [("nic", 2)]) := rfl

example : Hugepages.Allocate ⟨0, 0⟩ [("memory", 1)] = (⟨0, 0⟩, .error .notAvailable) :=
  rfl

example : Hugepages.Modify 2097152 [("memory", 5242880)] =
    .ok [("memory", 6291456), ("hugepages", 3)] := rfl

/-- A PCI address domain:bus:slot.function (api.PCIAddress). -/
structure PCIAddress where
  domain : Nat
  bus : Nat
  slot : Nat
  function : Nat
deriving DecidableEq, Repr

/-- api.PCIDevice: an address together with the derived resource name. -/
structure PCIDevice where
  addr : PCIAddress
  name : RName
deriving DecidableEq, Repr

/-- The part of api.Machine the PCI source touches: machine.Status.PCIDevices. -/
structure PCIMachine where
  statusPCIDevices : List PCIDevice
deriving DecidableEq, Repr

/-- The per-resource address pools p.devices of the PCI source, a Go map from
resource name to a slice of addresses. -/
abbrev DeviceMap := List (RName × List PCIAddress)

/-- Reading p.devices[name]. -/
def deviceGet : DeviceMap → RName → Option (List PCIAddress)
  | [], _ => none
  | (k, v) :: rest, n => if k = n then some v else deviceGet rest n

/-- Writing p.devices[name] = addrs. -/
def deviceSet : DeviceMap → RName → List PCIAddress → DeviceMap
  | [], n, addrs => [(n, addrs)]
  | (k, v) :: rest, n, addrs =>
    if k = n then (n, addrs) :: rest else (k, v) :: deviceSet rest n addrs

/-- First pass of PCI.Allocate (pci.go lines 105..116): for each required
resource present in p.devices, fail with ErrResourceNotAvailable if fewer
addresses than requested are pooled, else record it in allocatedResources;
required resources unknown to the pool are skipped.  No state is mutated. -/
def PCI.checkPass (devices : DeviceMap) : ResourceList → Except AllocErr ResourceList
  | [] => .ok []
  | (resourceName, requiredQty) :: rest =>
    match deviceGet devices resourceName with
    | none => PCI.checkPass devices rest
    | some availableDevices =>
      if (availableDevices.length : Int) < requiredQty then .error .notAvailable
      else
        match PCI.checkPass devices rest with
        | .error e => .error e
        | .ok others => .ok ((resourceName, requiredQty) :: others)

/-- PCI.allocatePCIAddress (pci.go lines 154..172): pops the first N pooled
addresses of every required resource present in the pool and returns them as
PCIDevice entries together with the shrunk pools.  In the Go code this
function returns a nil error unconditionally. -/
def PCI.allocatePCIAddress (devices : DeviceMap) :
    ResourceList → List PCIDevice × DeviceMap
  | [] => ([], devices)
  | (resourceName, requiredQty) :: rest =>
    match deviceGet devices resourceName with
    | none => PCI.allocatePCIAddress devices rest
    | some availableDevices =>
      let taken := (availableDevices.take requiredQty.toNat).map
        (fun a => PCIDevice.mk a resourceName)
      let shrunk := deviceSet devices resourceName (availableDevices.drop requiredQty.toNat)
      let res := PCI.allocatePCIAddress shrunk rest
      (taken ++ res.1, res.2)

/-- PCI.Allocate (pci.go lines 102..128): the validation pass runs before any
mutation; only when it passes are addresses popped and written into
machine.Status.PCIDevices. -/
def PCI.Allocate (p : DeviceMap) (machine : PCIMachine) (requiredResources : ResourceList) :
    DeviceMap × PCIMachine × Except AllocErr ResourceList :=
  match PCI.checkPass p requiredResources with
  | .error e => (p, machine, .error e)
  | .ok allocatedResources =>
    let res := PCI.allocatePCIAddress p requiredResources
    (res.2, ⟨res.1⟩, .ok allocatedResources)

/-- PCI.Deallocate (pci.go lines 130..144): pushes the addresses recorded in
machine.Status.PCIDevices back into the pools of names the pool knows, clears
the machine status and reports every required resource name as released. -/
def PCI.deallocatePCIAddress (devices : DeviceMap) :
    List PCIDevice → DeviceMap
  | [] => devices
  | device :: rest =>
    match deviceGet devices device.name with
    | none => PCI.deallocatePCIAddress devices rest
    | some addrs =>
      PCI.deallocatePCIAddress (deviceSet devices device.name (addrs ++ [device.addr])) rest

/-- PCI.Deallocate itself. -/
def PCI.Deallocate (p : DeviceMap) (machine : PCIMachine) (requiredResources : ResourceList) :
    DeviceMap × PCIMachine × List RName :=
  (PCI.deallocatePCIAddress p machine.statusPCIDevices, ⟨[]⟩,
    requiredResources.map (·.1))

/-- PCI.GetAvailableResources (pci.go lines 146..152): one quantity per pooled
resource, the length of its address slice. -/
def PCI.GetAvailableResources (p : DeviceMap) : ResourceList :=
  p.map (fun kv => (kv.1, (kv.2.length : Int)))

/-- Errors surfaced by the package-level manager wrappers. -/
inductive MgrErr
  | resourcesEmpty
  | delegateErr (msg : String)
deriving DecidableEq, Repr

/-- The part of api.Machine the manager wrappers read: machine.Spec.Resources. -/
structure MMachine where
  specResources : ResourceList
deriving DecidableEq, Repr

/-- manager.HasMachineAllocatedResources from pkg/resources/manager/functions.go:
len(machine.Spec.Resources) != 0. -/
def manager.HasMachineAllocatedResources (machine : MMachine) : Bool :=
  !machine.specResources.isEmpty

/-- The package-level manager.Allocate wrapper (functions.go lines 27..33):
an empty required list short-circuits to ErrResourcesEmpty before the
singleton manager is consulted; otherwise the call is delegated to
mng.allocate, abstracted here as a state transformer over an arbitrary
manager state type. -/
def manager.Allocate {σ : Type}
    (mngAllocate : MMachine → ResourceList → σ → σ × Option MgrErr)
    (st : σ) (machine : MMachine) (requiredResources : ResourceList) :
    σ × Option MgrErr :=
  if requiredResources.isEmpty then (st, some .resourcesEmpty)
  else mngAllocate machine requiredResources st

/-- The package-level manager.Deallocate wrapper (functions.go lines 37..47):
an empty list short-circuits to ErrResourcesEmpty; a machine with no
allocated resources returns nil without delegating; otherwise the call is
delegated to mng.deallocate. -/
def manager.Deallocate {σ : Type}
    (mngDeallocate : MMachine → ResourceList → σ → σ × Option MgrErr)
    (st : σ) (machine : MMachine) (deallocateResources : ResourceList) :
    σ × Option MgrErr :=
  if deallocateResources.isEmpty then (st, some .resourcesEmpty)
  else if !(manager.HasMachineAllocatedResources machine) then (st, none)
  else mngDeallocate machine deallocateResources st

/-- A persisted record as the generic host store sees it through the
api.Object interface: id, created_at, deleted_at, finalizers and
resource_version, with the rest of the machine opaque. -/
structure StoredObj where
  id : String
  createdAt : Int
  deletedAt : Option Int
  finalizers : List String
  resourceVersion : Nat
  payload : String
deriving DecidableEq, Repr

/-- The store directory: one entry per object id. -/
abbrev StoreDir := List (String × StoredObj)

/-- Store.get: read the file named by the id. -/
def storeGet : StoreDir → String → Option StoredObj
  | [], _ => none
  | (k, v) :: rest, id => if k = id then some v else storeGet rest id

/-- Store.set: write-and-rename the file named by the object id. -/
def storeSet : StoreDir → StoredObj → StoreDir
  | [], obj => [(obj.id, obj)]
  | (k, v) :: rest, obj =>
    if k = obj.id then (obj.id, obj) :: rest else (k, v) :: storeSet rest obj

/-- Store.delete: unlink the file named by the id. -/
def storeDelete (dir : StoreDir) (id : String) : StoreDir :=
  dir.filter (fun kv => kv.1 ≠ id)

/-- Modelled from the spec: the api.Object method IncrementResourceVersion is
declared in the api package, which is not among the sources; per the data
model a resource_version is a per-object monotonic integer that increments on
every persisted mutation, so the method adds one to the stored counter. -/
def IncrementResourceVersion (obj : StoredObj) : StoredObj :=
  { obj with resourceVersion := obj.resourceVersion + 1 }

/-- Errors of the host store relevant here (internal/store). -/
inductive StoreErr
  | alreadyExists
  | notFound
  | resourceVersionNotLatest
deriving DecidableEq, Repr

/-- Store.Create from internal/host/store.go lines 78..109: fails with
ErrAlreadyExists when the id is present, otherwise runs the optional
PrepareForCreate hook, stamps created_at with the current time, increments
the resource version and writes the record. -/
def Store.Create (createStrategy : Option (StoredObj → StoredObj)) (now : Int)
    (dir : StoreDir) (obj : StoredObj) : StoreDir × Except StoreErr StoredObj :=
  match storeGet dir obj.id with
  | some _ => (dir, .error .alreadyExists)
  | none =>
    let obj :=
      match createStrategy with
      | some prepareForCreate => prepareForCreate obj
      | none => obj
    let obj := { obj with createdAt := now }
    let obj := IncrementResourceVersion obj
    (storeSet dir obj, .ok obj)

/-- Store.Update from internal/host/store.go lines 123..160: reads the
current record; a new record carrying deleted_at with no finalizers is hard
deleted before any version comparison; then a resource version mismatch
yields ErrResourceVersionNotLatest; a deep-equal record returns without a
version bump; otherwise the version is bumped and the record written. -/
def Store.Update (dir : StoreDir) (obj : StoredObj) : StoreDir × Except StoreErr StoredObj :=
  match storeGet dir obj.id with
  | none => (dir, .error .notFound)
  | some oldObj =>
    if obj.deletedAt.isSome && obj.finalizers.isEmpty then
      (storeDelete dir obj.id, .ok obj)
    else if oldObj.resourceVersion ≠ obj.resourceVersion then
      (dir, .error .resourceVersionNotLatest)
    else if oldObj = obj then
      (dir, .ok obj)
    else
      let obj := IncrementResourceVersion obj
      (storeSet dir obj, .ok obj)

/-- One event of the bounded machine event ring (irievent.Event spec). -/
structure EventSpec where
  involvedObjectMeta : String
  eventType : String
  reason : String
  message : String
  eventTime : Int
deriving DecidableEq, Repr

/-- The EventStore of internal/event/machineevent: a fixed capacity ring with
head index and count, plus the per-entry TTL. -/
structure EventStoreState where
  maxEvents : Nat
  events : List (Option EventSpec)
  eventTTL : Int
  head : Nat
  count : Nat
deriving DecidableEq, Repr

/-- NewEventStore: an empty ring of maxEvents slots. -/
def NewEventStore (maxEvents : Nat) (eventTTL : Int) : EventStoreState :=
  { maxEvents := maxEvents
    events := List.replicate maxEvents none
    eventTTL := eventTTL
    head := 0
    count := 0 }

/-- EventStore.AddEvent: metadata derivation may fail, in which case the
store is untouched; otherwise the new event is written at
(head + count) mod maxEvents, and a full store advances the head over the
oldest entry instead of growing the count.  The metadata result of
api.GetObjectMetadata is abstracted as an Option argument. -/
def EventStore.AddEvent (s : EventStoreState) (metadata : Option String)
    (eventType reason message : String) (now : Int) : EventStoreState :=
  match metadata with
  | none => s
  | some meta =>
    let index := (s.head + s.count) % s.maxEvents
    let afterRoom :=
      if s.count = s.maxEvents then
        { s with head := (s.head + 1) % s.maxEvents }
      else
        { s with count := s.count + 1 }
    let event : EventSpec :=
      { involvedObjectMeta := meta
        eventType := eventType
        reason := reason
        message := message
        eventTime := now }
    { afterRoom with events := afterRoom.events.set index (some event) }

/-- The loop body of EventStore.RemoveExpiredEvents, with the loop expressed
through a fuel argument that starts at the entry count (each iteration
decrements count, so the Go loop runs at most count times). -/
def EventStore.removeExpiredLoop (now : Int) : Nat → EventStoreState → EventStoreState
  | 0, s => s
  | fuel + 1, s =>
    if s.count = 0 then s
    else
      let index := s.head % s.maxEvents
      match (s.events.get? index).join with
      | none => s
      | some event =>
        if now < event.eventTime + s.eventTTL then s
        else
          EventStore.removeExpiredLoop now fuel
            { s with
              events := s.events.set index none
              head := (s.head + 1) % s.maxEvents
              count := s.count - 1 }

/-- EventStore.RemoveExpiredEvents: drop expired events from the head until
the first non-expired entry. -/
def EventStore.RemoveExpiredEvents (s : EventStoreState) (now : Int) : EventStoreState :=
  EventStore.removeExpiredLoop now s.count s

/-- EventStore.ListEvents: deep copies of the count events in FIFO order;
the store state is not modified. -/
def EventStore.ListEvents (s : EventStoreState) : List EventSpec :=
  (List.range s.count).filterMap (fun i => (s.events.get? ((s.head + i) % s.maxEvents)).join)

/-- One observable call against the event store. -/
inductive ESOp
  | add (metadata : Option String) (eventType reason message : String) (now : Int)
  | removeExpired (now : Int)
  | list
deriving DecidableEq, Repr

/-- Applying one call to the store state (ListEvents leaves it unchanged). -/
def ESOp.apply (s : EventStoreState) : ESOp → EventStoreState
  | .add metadata eventType reason message now =>
    EventStore.AddEvent s metadata eventType reason message now
  | .removeExpired now => EventStore.RemoveExpiredEvents s now
  | .list => s

/-- Applying a sequence of calls. -/
def ESOp.applyAll (s : EventStoreState) : List ESOp → EventStoreState
  | [] => s
  | op :: rest => ESOp.applyAll (ESOp.apply s op) rest

/-- One call against a single source: the manager hands each source an
Allocate with a required list or a Deallocate with a charged list. -/
inductive SrcOp
  | alloc (required : ResourceList)
  | dealloc (resources : ResourceList)
deriving DecidableEq, Repr

/-- The resource list an operation carries. -/
def SrcOp.resList : SrcOp → ResourceList
  | .alloc required => required
  | .dealloc resources => resources

/-- Every quantity of the list is non-negative. -/
def allNonneg (l : ResourceList) : Bool :=
  l.all (fun kv => 0 ≤ kv.2)

/-- The deallocated lists of a call sequence, in order. -/
def deallocLists (ops : List SrcOp) : List ResourceList :=
  ops.filterMap (fun op =>
    match op with
    | .dealloc resources => some resources
    | .alloc _ => none)

/-- The quantity a list carries for one key, zero when absent: this is the
exact effect a numeric source applies for that key. -/
def keyVal (name : RName) (l : ResourceList) : Quantity :=
  (getQ l name).getD 0

/-- Running a call sequence against the CPU source: the final availableCPU,
whether every Allocate succeeded, and the charged lists the successful
Allocates returned, in order. -/
def CPU.run (availableCPU : Quantity) : List SrcOp → Quantity × Bool × List ResourceList
  | [] => (availableCPU, true, [])
  | .alloc required :: rest =>
    match CPU.Allocate availableCPU required with
    | (a, .ok charged) =>
      let r := CPU.run a rest
      (r.1, r.2.1, charged :: r.2.2)
    | (a, .error _) =>
      let r := CPU.run a rest
      (r.1, false, r.2.2)
  | .dealloc resources :: rest =>
    CPU.run (CPU.Deallocate availableCPU resources).1 rest

/-- Running a call sequence against the Memory source. -/
def Memory.run (availableMemory : Quantity) : List SrcOp → Quantity × Bool × List ResourceList
  | [] => (availableMemory, true, [])
  | .alloc required :: rest =>
    match Memory.Allocate availableMemory required with
    | (a, .ok charged) =>
      let r := Memory.run a rest
      (r.1, r.2.1, charged :: r.2.2)
    | (a, .error _) =>
      let r := Memory.run a rest
      (r.1, false, r.2.2)
  | .dealloc resources :: rest =>
    Memory.run (Memory.Deallocate availableMemory resources).1 rest

/-- Running a call sequence against the Hugepages source. -/
def Hugepages.run (s : HugepagesState) : List SrcOp → HugepagesState × Bool × List ResourceList
  | [] => (s, true, [])
  | .alloc required :: rest =>
    match Hugepages.Allocate s required with
    | (a, .ok charged) =>
      let r := Hugepages.run a rest
      (r.1, r.2.1, charged :: r.2.2)
    | (a, .error _) =>
      let r := Hugepages.run a rest
      (r.1, false, r.2.2)
  | .dealloc resources :: rest =>
    Hugepages.run (Hugepages.Deallocate s resources).1 rest

theorem getQ_setQ_same (l : ResourceList) (n : RName) (q : Quantity) :
    getQ (setQ l n q) n = some q := by
  induction l with
  | nil => simp [setQ, getQ]
  | cons kv rest ih =>
    obtain ⟨k, v⟩ := kv
    by_cases hk : k = n
    · simp [setQ, getQ, hk]
    · simp [setQ, getQ, hk, ih]

theorem getQ_setQ_other (l : ResourceList) (n m : RName) (q : Quantity) (h : n ≠ m) :
    getQ (setQ l n q) m = getQ l m := by
  induction l with
  | nil => simp [setQ, getQ, h]
  | cons kv rest ih =>
    obtain ⟨k, v⟩ := kv
    by_cases hk : k = n
    · subst hk
      simp [setQ, getQ, h]
    · by_cases hm : k = m
      · subst hm
        simp [setQ, getQ, hk]
      · simp [setQ, getQ, hk, hm, ih]

/-- C9: the package-level Allocate and Deallocate reject an empty resource
list with ErrResourcesEmpty before delegating to the manager singleton, so
no source is consulted and no accounting state changes, whatever the
delegate would do. -/
theorem c9_empty_resources {σ : Type}
    (mngAllocate mngDeallocate : MMachine → ResourceList → σ → σ × Option MgrErr)
    (st1 st2 : σ) (machine1 machine2 : MMachine) :
    manager.Allocate mngAllocate st1 machine1 [] = (st1, some .resourcesEmpty) ∧
    manager.Deallocate mngDeallocate st2 machine2 [] = (st2, some .resourcesEmpty) := by
  constructor
  · simp [manager.Allocate]
  · simp [manager.Deallocate]

/-- C10: a non-empty required list that lacks the primary key of the CPU,
Memory or Hugepages source makes the source opt out: nil charge, no error,
available resources unchanged. -/
theorem c10_opt_out (availableCPU availableMemory : Quantity) (sH : HugepagesState)
    (req1 req2 req3 : ResourceList)
    (h1n : req1 ≠ []) (h1 : getQ req1 "cpu" = none)
    (h2n : req2 ≠ []) (h2 : getQ req2 "memory" = none)
    (h3n : req3 ≠ []) (h3 : getQ req3 "memory" = none) :
    CPU.Allocate availableCPU req1 = (availableCPU, .ok []) ∧
    Memory.Allocate availableMemory req2 = (availableMemory, .ok []) ∧
    Hugepages.Allocate sH req3 = (sH, .ok []) := by
  refine ⟨?_, ?_, ?_⟩
  · simp [CPU.Allocate, h1]
  · simp [Memory.Allocate, h2]
  · simp [Hugepages.Allocate, h3]

theorem c10_opt_out_witness :
    ([("nic", (1 : Quantity))] ≠ ([] : ResourceList)) ∧
    getQ [("nic", 1)] "cpu" = none ∧
    getQ [("nic", 1)] "memory" = none ∧
    CPU.Allocate 8 [("nic", 1)] = (8, .ok []) ∧
    Memory.Allocate 9 [("nic", 1)] = (9, .ok []) ∧
    Hugepages.Allocate ⟨7, 3⟩ [("nic", 1)] = (⟨7, 3⟩, .ok []) := by
  have h := c10_opt_out 8 9 ⟨7, 3⟩ [("nic", 1)] [("nic", 1)] [("nic", 1)]
    (by decide) rfl (by decide) rfl (by decide) rfl
  exact ⟨by decide, rfl, rfl, h.1, h.2.1, h.2.2⟩

/-- C2: when PCI.Allocate fails with ResourceNotAvailable the failure comes
out of the validation pass, so the per-resource address pools are unchanged
and nothing is written into the machine status. -/
theorem c2_pci_rollback (p : DeviceMap) (machine : PCIMachine)
    (requiredResources : ResourceList)
    (h : (PCI.Allocate p machine requiredResources).2.2 = .error .notAvailable) :
    (PCI.Allocate p machine requiredResources).1 = p ∧
    (PCI.Allocate p machine requiredResources).2.1 = machine := by
  unfold PCI.Allocate at h ⊢
  cases hc : PCI.checkPass p requiredResources with
  | error e => simp [hc]
  | ok allocated => simp [hc] at h

theorem c2_pci_rollback_witness :
    (PCI.Allocate [("gpu.nvidia/a100", [⟨0, 1, 2, 3⟩])] ⟨[]⟩
        [("gpu.nvidia/a100", 2)]).2.2 = .error .notAvailable ∧
    (PCI.Allocate [("gpu.nvidia/a100", [⟨0, 1, 2, 3⟩])] ⟨[]⟩
        [("gpu.nvidia/a100", 2)]).1 = [("gpu.nvidia/a100", [⟨0, 1, 2, 3⟩])] ∧
    (PCI.Allocate [("gpu.nvidia/a100", [⟨0, 1, 2, 3⟩])] ⟨[]⟩
        [("gpu.nvidia/a100", 2)]).2.1 = ⟨[]⟩ := by
  have h := c2_pci_rollback [("gpu.nvidia/a100", [⟨0, 1, 2, 3⟩])] ⟨[]⟩
    [("gpu.nvidia/a100", 2)] rfl
  exact ⟨rfl, h.1, h.2⟩

theorem c3_counterexample :
    Hugepages.Allocate ⟨0, 0⟩ [("memory", 1)] = (⟨0, 0⟩, .error .notAvailable) ∧
    AllocErr.notAvailable ≠ AllocErr.missing :=
  ⟨rfl, by decide⟩

/-- C3 amended: with memory present, hugepages absent, and the requested
memory no larger than the available memory, Hugepages.Allocate returns
ErrResourceMissing and charges nothing; when the requested memory exceeds
what is available the availability check fires first and the error is
ErrResourceNotAvailable instead. -/
theorem c3_missing_amended (s : HugepagesState) (requiredResources : ResourceList)
    (mem : Quantity)
    (hmem : getQ requiredResources "memory" = some mem)
    (hhp : getQ requiredResources "hugepages" = none)
    (hfit : mem ≤ s.availableMemory) :
    Hugepages.Allocate s requiredResources = (s, .error .missing) := by
  simp [Hugepages.Allocate, hmem, hhp, not_lt.mpr hfit]

theorem c3_missing_amended_witness :
    getQ [("memory", 3)] "memory" = some 3 ∧
    getQ [("memory", 3)] "hugepages" = none ∧
    (3 : Quantity) ≤ 5 ∧
    Hugepages.Allocate ⟨5, 2⟩ [("memory", 3)] = (⟨5, 2⟩, .error .missing) :=
  ⟨rfl, rfl, by decide,
    c3_missing_amended ⟨5, 2⟩ [("memory", 3)] 3 rfl rfl (by decide)⟩

theorem c4_counterexample :
    (StoredObj.mk "m1" 0 none [] 1 "a").resourceVersion ≠
      (StoredObj.mk "m1" 0 (some 7) [] 5 "a").resourceVersion ∧
    Store.Update [("m1", StoredObj.mk "m1" 0 none [] 1 "a")]
        (StoredObj.mk "m1" 0 (some 7) [] 5 "a") =
      ([], .ok (StoredObj.mk "m1" 0 (some 7) [] 5 "a")) :=
  ⟨by decide, rfl⟩

/-- C4 amended: a candidate record whose resource_version differs from the
stored one makes Store.Update fail with ErrResourceVersionNotLatest and leave
the store unchanged, provided the candidate is not marked for hard delete;
a candidate with deleted_at set and no finalizers is hard deleted before the
version comparison, removing the stored record despite the mismatch. -/
theorem c4_update_mismatch_amended (dir : StoreDir) (obj oldObj : StoredObj)
    (hget : storeGet dir obj.id = some oldObj)
    (hver : oldObj.resourceVersion ≠ obj.resourceVersion)
    (hdel : (obj.deletedAt.isSome && obj.finalizers.isEmpty) = false) :
    Store.Update dir obj = (dir, .error .resourceVersionNotLatest) := by
  simp [Store.Update, hget, hdel, hver]

theorem c4_update_mismatch_amended_witness :
    storeGet [("m1", StoredObj.mk "m1" 0 none [] 1 "a")]
      (StoredObj.mk "m1" 0 none [] 5 "a").id = some (StoredObj.mk "m1" 0 none [] 1 "a") ∧
    (StoredObj.mk "m1" 0 none [] 1 "a").resourceVersion ≠
      (StoredObj.mk "m1" 0 none [] 5 "a").resourceVersion ∧
    ((StoredObj.mk "m1" 0 none [] 5 "a").deletedAt.isSome &&
      (StoredObj.mk "m1" 0 none [] 5 "a").finalizers.isEmpty) = false ∧
    Store.Update [("m1", StoredObj.mk "m1" 0 none [] 1 "a")]
        (StoredObj.mk "m1" 0 none [] 5 "a") =
      ([("m1", StoredObj.mk "m1" 0 none [] 1 "a")], .error .resourceVersionNotLatest) :=
  ⟨rfl, by decide, rfl,
    c4_update_mismatch_amended [("m1", StoredObj.mk "m1" 0 none [] 1 "a")]
      (StoredObj.mk "m1" 0 none [] 5 "a") (StoredObj.mk "m1" 0 none [] 1 "a")
      rfl (by decide) rfl⟩

theorem c5_counterexample :
    (Store.Create none 0 [] (StoredObj.mk "m1" 0 none [] 5 "a")).2 =
      .ok (StoredObj.mk "m1" 0 none [] 6 "a") ∧
    (StoredObj.mk "m1" 0 none [] 6 "a").resourceVersion ≠ 1 :=
  ⟨rfl, by decide⟩

/-- C5 amended: for an id not yet in the store, Store.Create persists the
record with resource_version equal to the input record's resource_version
plus one (the code increments rather than assigning 1), so it equals 1
exactly when the caller hands in a fresh record carrying resource_version
zero.  The nil create strategy case is shown. -/
theorem c5_create_version_amended (dir : StoreDir) (obj : StoredObj) (now : Int)
    (habsent : storeGet dir obj.id = none) :
    (Store.Create none now dir obj).2 =
      .ok (IncrementResourceVersion { obj with createdAt := now }) ∧
    (IncrementResourceVersion { obj with createdAt := now }).resourceVersion =
      obj.resourceVersion + 1 := by
  refine ⟨?_, rfl⟩
  simp [Store.Create, habsent]

theorem c5_create_version_amended_witness :
    storeGet [] (StoredObj.mk "m1" 0 none [] 0 "a").id = none ∧
    (Store.Create none 3 [] (StoredObj.mk "m1" 0 none [] 0 "a")).2 =
      .ok (IncrementResourceVersion
        { StoredObj.mk "m1" 0 none [] 0 "a" with createdAt := 3 }) ∧
    (IncrementResourceVersion
        { StoredObj.mk "m1" 0 none [] 0 "a" with createdAt := 3 }).resourceVersion = 1 :=
  ⟨rfl,
    (c5_create_version_amended [] (StoredObj.mk "m1" 0 none [] 0 "a") 3 rfl).1,
    (c5_create_version_amended [] (StoredObj.mk "m1" 0 none [] 0 "a") 3 rfl).2⟩


theorem ceil_mul_bounds (M p : Nat) (hp : 0 < p) (hM : 1 ≤ M) :
    M ≤ ((M + p - 1) / p) * p ∧ ((M + p - 1) / p) * p < M + p := by
  have key : ∀ q r : Nat, r < p → p * q + r = M + p - 1 →
      M ≤ q * p ∧ q * p < M + p := by
    intro q r h1 h2
    rw [mul_comm]
    generalize hX : p * q = X at h2 ⊢
    omega
  exact key ((M + p - 1) / p) ((M + p - 1) % p)
    (Nat.mod_lt _ hp) (Nat.div_add_mod _ _)

/-- C6: for a positive page size and a positive memory capability,
Hugepages.Modify emits hugepages = ceil(memory / pageSize) and replaces
memory with that page count times the page size, which is the smallest page
multiple not below the declared memory. -/
theorem c6_modify_rounding (pageSize : Nat) (resources : ResourceList) (memory : Quantity)
    (hp : 0 < pageSize)
    (hmem : getQ resources "memory" = some memory)
    (hm : 0 < memory) :
    Hugepages.Modify pageSize resources =
      .ok (setQ (setQ resources "hugepages"
            (Int.ofNat ((memory.toNat + pageSize - 1) / pageSize)))
          "memory"
          (Int.ofNat (((memory.toNat + pageSize - 1) / pageSize) * pageSize))) ∧
    getQ (setQ (setQ resources "hugepages"
            (Int.ofNat ((memory.toNat + pageSize - 1) / pageSize)))
          "memory"
          (Int.ofNat (((memory.toNat + pageSize - 1) / pageSize) * pageSize)))
        "hugepages" = some (Int.ofNat ((memory.toNat + pageSize - 1) / pageSize)) ∧
    getQ (setQ (setQ resources "hugepages"
            (Int.ofNat ((memory.toNat + pageSize - 1) / pageSize)))
          "memory"
          (Int.ofNat (((memory.toNat + pageSize - 1) / pageSize) * pageSize)))
        "memory" = some (Int.ofNat (((memory.toNat + pageSize - 1) / pageSize) * pageSize)) ∧
    memory ≤ Int.ofNat (((memory.toNat + pageSize - 1) / pageSize) * pageSize) ∧
    Int.ofNat (((memory.toNat + pageSize - 1) / pageSize) * pageSize) <
      memory + (pageSize : Int) := by
  have hm2 : (0 : Int) < memory := hm
  have hM : 1 ≤ memory.toNat := by omega
  have hnat := ceil_mul_bounds memory.toNat pageSize hp hM
  have hofm : (memory.toNat : Int) = memory := Int.toNat_of_nonneg (le_of_lt hm)
  refine ⟨?_, ?_, ?_, ?_, ?_⟩
  · simp [Hugepages.Modify, hmem, not_le.mpr hm]
  · rw [getQ_setQ_other _ "memory" "hugepages" _ (by decide), getQ_setQ_same]
  · rw [getQ_setQ_same]
  · calc memory = (memory.toNat : Int) := hofm.symm
      _ ≤ Int.ofNat (((memory.toNat + pageSize - 1) / pageSize) * pageSize) :=
        Int.ofNat_le.mpr hnat.1
  · calc Int.ofNat (((memory.toNat + pageSize - 1) / pageSize) * pageSize)
        < ((memory.toNat + pageSize : Nat) : Int) := Int.ofNat_lt.mpr hnat.2
      _ = memory + (pageSize : Int) := by
        push_cast
        rw [hofm]

theorem c6_modify_rounding_witness :
    (0 : Nat) < 2097152 ∧
    getQ [("memory", 5242880)] "memory" = some 5242880 ∧
    (0 : Quantity) < 5242880 ∧
    Hugepages.Modify 2097152 [("memory", 5242880)] =
      .ok [("memory", 6291456), ("hugepages", 3)] ∧
    getQ [("memory", (6291456 : Quantity)), ("hugepages", 3)] "hugepages" = some 3 ∧
    getQ [("memory", (6291456 : Quantity)), ("hugepages", 3)] "memory" = some 6291456 := by
  have h := c6_modify_rounding 2097152 [("memory", 5242880)] 5242880
    (by decide) rfl (by decide)
  exact ⟨by decide, rfl, by decide, h.1, rfl, rfl⟩

theorem addEvent_count_le (s : EventStoreState) (metadata : Option String)
    (eventType reason message : String) (now : Int)
    (h : s.count ≤ s.maxEvents) :
    (EventStore.AddEvent s metadata eventType reason message now).count ≤
      (EventStore.AddEvent s metadata eventType reason message now).maxEvents ∧
    (EventStore.AddEvent s metadata eventType reason message now).maxEvents =
      s.maxEvents := by
  cases metadata with
  | none => exact ⟨h, rfl⟩
  | some meta =>
    by_cases hfull : s.count = s.maxEvents
    · simp [EventStore.AddEvent, hfull]
    · constructor
      · simp only [EventStore.AddEvent, hfull]
        simp
        omega
      · simp [EventStore.AddEvent, hfull]

theorem removeExpiredLoop_count_le (now : Int) :
    ∀ (fuel : Nat) (s : EventStoreState),
      (EventStore.removeExpiredLoop now fuel s).count ≤ s.count ∧
      (EventStore.removeExpiredLoop now fuel s).maxEvents = s.maxEvents
  | 0, s => ⟨le_refl _, rfl⟩
  | fuel + 1, s => by
    unfold EventStore.removeExpiredLoop
    by_cases hz : s.count = 0
    · simp [hz]
    · simp only [hz, if_false]
      cases hev : (s.events.get? (s.head % s.maxEvents)).join with
      | none => exact ⟨le_refl _, rfl⟩
      | some event =>
        by_cases hfresh : now < event.eventTime + s.eventTTL
        · simp [hfresh]
        · simp only [hfresh, if_false]
          have ih := removeExpiredLoop_count_le now fuel
            { s with
              events := s.events.set (s.head % s.maxEvents) none
              head := (s.head + 1) % s.maxEvents
              count := s.count - 1 }
          exact ⟨le_trans ih.1 (by simp), ih.2⟩

theorem esop_apply_inv (s : EventStoreState) (op : ESOp)
    (h : s.count ≤ s.maxEvents) :
    (ESOp.apply s op).count ≤ (ESOp.apply s op).maxEvents ∧
    (ESOp.apply s op).maxEvents = s.maxEvents := by
  cases op with
  | add metadata eventType reason message now =>
    exact addEvent_count_le s metadata eventType reason message now h
  | removeExpired now =>
    have hl := removeExpiredLoop_count_le now s.count s
    exact ⟨le_trans hl.1 (hl.2 ▸ h), hl.2⟩
  | list => exact ⟨h, rfl⟩

theorem esop_applyAll_inv : ∀ (ops : List ESOp) (s : EventStoreState),
    s.count ≤ s.maxEvents →
    (ESOp.applyAll s ops).count ≤ (ESOp.applyAll s ops).maxEvents ∧
    (ESOp.applyAll s ops).maxEvents = s.maxEvents
  | [], s, h => ⟨h, rfl⟩
  | op :: rest, s, h => by
    have hstep := esop_apply_inv s op h
    have ih := esop_applyAll_inv rest (ESOp.apply s op) hstep.1
    exact ⟨ih.1, hstep.2 ▸ ih.2⟩

/-- C8: however many AddEvent, RemoveExpiredEvents and ListEvents calls hit a
ring created by NewEventStore with capacity maxEvents, its count never
exceeds maxEvents: a full ring overwrites the oldest entry and advances the
head instead of growing. -/
theorem c8_event_ring_bounded (maxEvents : Nat) (eventTTL : Int) (ops : List ESOp) :
    (ESOp.applyAll (NewEventStore maxEvents eventTTL) ops).count ≤ maxEvents := by
  have h := esop_applyAll_inv ops (NewEventStore maxEvents eventTTL)
    (by simp [NewEventStore])
  exact le_trans h.1 (le_of_eq h.2)

theorem allNonneg_getD : ∀ (l : ResourceList) (n : RName),
    allNonneg l = true → 0 ≤ (getQ l n).getD 0
  | [], n, _ => by simp [getQ]
  | (k, v) :: rest, n, h => by
    have h2 : (0 ≤ v) ∧ allNonneg rest = true := by
      simpa [allNonneg] using h
    by_cases hk : k = n
    · simpa [getQ, hk] using h2.1
    · simpa [getQ, hk] using allNonneg_getD rest n h2.2

theorem cpu_run_alloc_fst (a : Quantity) (req : ResourceList) (rest : List SrcOp) :
    (CPU.run a (.alloc req :: rest)).1 = (CPU.run (CPU.Allocate a req).1 rest).1 := by
  rcases h : CPU.Allocate a req with ⟨a2, r⟩
  cases r with
  | ok charged => simp [CPU.run, h]
  | error e => simp [CPU.run, h]

theorem cpu_alloc_fst_nonneg (a : Quantity) (req : ResourceList) (h : 0 ≤ a) :
    0 ≤ (CPU.Allocate a req).1 := by
  unfold CPU.Allocate
  cases hq : getQ req "cpu" with
  | none => simpa using h
  | some cpu =>
    by_cases hneg : a - cpu < 0
    · simpa [hneg] using h
    · simpa [hneg] using not_lt.mp hneg

theorem cpu_dealloc_fst (a : Quantity) (res : ResourceList) :
    (CPU.Deallocate a res).1 = a + (getQ res "cpu").getD 0 := by
  unfold CPU.Deallocate
  cases h : getQ res "cpu" <;> simp [h]

theorem cpu_run_fst_nonneg : ∀ (ops : List SrcOp) (a : Quantity),
    0 ≤ a → (ops.all fun op => allNonneg op.resList) = true →
    0 ≤ (CPU.run a ops).1
  | [], a, h, _ => by simpa [CPU.run] using h
  | .alloc req :: rest, a, h, hops => by
    have hsplit : allNonneg req = true ∧ (rest.all fun op => allNonneg op.resList) = true := by
      simpa [SrcOp.resList] using hops
    rw [cpu_run_alloc_fst]
    exact cpu_run_fst_nonneg rest _ (cpu_alloc_fst_nonneg a req h) hsplit.2
  | .dealloc res :: rest, a, h, hops => by
    have hsplit : allNonneg res = true ∧ (rest.all fun op => allNonneg op.resList) = true := by
      simpa [SrcOp.resList] using hops
    have hd : 0 ≤ (CPU.Deallocate a res).1 := by
      rw [cpu_dealloc_fst]
      exact add_nonneg h (allNonneg_getD res "cpu" hsplit.1)
    simpa [CPU.run] using cpu_run_fst_nonneg rest _ hd hsplit.2

theorem mem_run_alloc_fst (a : Quantity) (req : ResourceList) (rest : List SrcOp) :
    (Memory.run a (.alloc req :: rest)).1 = (Memory.run (Memory.Allocate a req).1 rest).1 := by
  rcases h : Memory.Allocate a req with ⟨a2, r⟩
  cases r with
  | ok charged => simp [Memory.run, h]
  | error e => simp [Memory.run, h]

theorem mem_alloc_fst_nonneg (a : Quantity) (req : ResourceList) (h : 0 ≤ a) :
    0 ≤ (Memory.Allocate a req).1 := by
  unfold Memory.Allocate
  cases hq : getQ req "memory" with
  | none => simpa using h
  | some mem =>
    by_cases hlt : a < mem
    · simpa [hlt] using h
    · simpa [hlt] using sub_nonneg.mpr (not_lt.mp hlt)

theorem mem_dealloc_fst (a : Quantity) (res : ResourceList) :
    (Memory.Deallocate a res).1 = a + (getQ res "memory").getD 0 := by
  unfold Memory.Deallocate
  cases h : getQ res "memory" <;> simp [h]

theorem mem_run_fst_nonneg : ∀ (ops : List SrcOp) (a : Quantity),
    0 ≤ a → (ops.all fun op => allNonneg op.resList) = true →
    0 ≤ (Memory.run a ops).1
  | [], a, h, _ => by simpa [Memory.run] using h
  | .alloc req :: rest, a, h, hops => by
    have hsplit : allNonneg req = true ∧ (rest.all fun op => allNonneg op.resList) = true := by
      simpa [SrcOp.resList] using hops
    rw [mem_run_alloc_fst]
    exact mem_run_fst_nonneg rest _ (mem_alloc_fst_nonneg a req h) hsplit.2
  | .dealloc res :: rest, a, h, hops => by
    have hsplit : allNonneg res = true ∧ (rest.all fun op => allNonneg op.resList) = true := by
      simpa [SrcOp.resList] using hops
    have hd : 0 ≤ (Memory.Deallocate a res).1 := by
      rw [mem_dealloc_fst]
      exact add_nonneg h (allNonneg_getD res "memory" hsplit.1)
    simpa [Memory.run] using mem_run_fst_nonneg rest _ hd hsplit.2

theorem hp_run_alloc_fst (s : HugepagesState) (req : ResourceList) (rest : List SrcOp) :
    (Hugepages.run s (.alloc req :: rest)).1 =
      (Hugepages.run (Hugepages.Allocate s req).1 rest).1 := by
  rcases h : Hugepages.Allocate s req with ⟨s2, r⟩
  cases r with
  | ok charged => simp [Hugepages.run, h]
  | error e => simp [Hugepages.run, h]

theorem hp_alloc_fst_nonneg (s : HugepagesState) (req : ResourceList)
    (h1 : 0 ≤ s.availableMemory) (h2 : 0 ≤ s.availableHugePages) :
    0 ≤ (Hugepages.Allocate s req).1.availableMemory ∧
    0 ≤ (Hugepages.Allocate s req).1.availableHugePages := by
  unfold Hugepages.Allocate
  cases hm : getQ req "memory" with
  | none => exact ⟨h1, h2⟩
  | some mem =>
    by_cases hlt : s.availableMemory < mem
    · simpa [hlt] using ⟨h1, h2⟩
    · simp only [hlt, if_false]
      cases hh : getQ req "hugepages" with
      | none => exact ⟨h1, h2⟩
      | some hp2 =>
        by_cases hlt2 : s.availableHugePages < hp2
        · simpa [hlt2] using ⟨h1, h2⟩
        · simpa [hlt2] using ⟨not_lt.mp hlt, not_lt.mp hlt2⟩

theorem hp_dealloc_fst (s : HugepagesState) (res : ResourceList) :
    (Hugepages.Deallocate s res).1.availableMemory =
      s.availableMemory + (getQ res "memory").getD 0 ∧
    (Hugepages.Deallocate s res).1.availableHugePages =
      s.availableHugePages + (getQ res "hugepages").getD 0 := by
  unfold Hugepages.Deallocate
  cases h1 : getQ res "memory" <;> cases h2 : getQ res "hugepages" <;> simp [h1, h2]

theorem hp_run_fst_nonneg : ∀ (ops : List SrcOp) (s : HugepagesState),
    0 ≤ s.availableMemory → 0 ≤ s.availableHugePages →
    (ops.all fun op => allNonneg op.resList) = true →
    0 ≤ (Hugepages.run s ops).1.availableMemory ∧
    0 ≤ (Hugepages.run s ops).1.availableHugePages
  | [], s, h1, h2, _ => by simpa [Hugepages.run] using ⟨h1, h2⟩
  | .alloc req :: rest, s, h1, h2, hops => by
    have hsplit : allNonneg req = true ∧ (rest.all fun op => allNonneg op.resList) = true := by
      simpa [SrcOp.resList] using hops
    rw [hp_run_alloc_fst]
    have ha := hp_alloc_fst_nonneg s req h1 h2
    exact hp_run_fst_nonneg rest _ ha.1 ha.2 hsplit.2
  | .dealloc res :: rest, s, h1, h2, hops => by
    have hsplit : allNonneg res = true ∧ (rest.all fun op => allNonneg op.resList) = true := by
      simpa [SrcOp.resList] using hops
    have hd := hp_dealloc_fst s res
    have hd1 : 0 ≤ (Hugepages.Deallocate s res).1.availableMemory := by
      rw [hd.1]
      exact add_nonneg h1 (allNonneg_getD res "memory" hsplit.1)
    have hd2 : 0 ≤ (Hugepages.Deallocate s res).1.availableHugePages := by
      rw [hd.2]
      exact add_nonneg h2 (allNonneg_getD res "hugepages" hsplit.1)
    simpa [Hugepages.run] using hp_run_fst_nonneg rest _ hd1 hd2 hsplit.2

theorem c1_counterexample :
    NIC.GetAvailableResource (NIC.Allocate 1 [("nic", 2)]).1 = [("nic", -1)] ∧
    Mellanox.GetAvailableResource (Mellanox.Allocate 1 [("nic", 2)]).1 =
      [("mellanox", -1)] ∧
    (-1 : Quantity) < 0 :=
  ⟨rfl, rfl, by decide⟩

/-- C1 amended: under any call sequence with non-negative requested
quantities the CPU, Memory and Hugepages sources keep every available
quantity non-negative (each checks availability before subtracting), and the
PCI source reports pool lengths, which are never negative; the NIC and
Mellanox sources are excluded: they subtract without any availability check,
so an Allocate requesting more than is available drives their counter below
zero, as the counterexample shows. -/
theorem c1_nonneg_amended (availableCPU availableMemory : Quantity)
    (sH : HugepagesState) (p : DeviceMap)
    (opsC opsM opsH : List SrcOp)
    (hC0 : 0 ≤ availableCPU) (hM0 : 0 ≤ availableMemory)
    (hH0m : 0 ≤ sH.availableMemory) (hH0h : 0 ≤ sH.availableHugePages)
    (hCq : (opsC.all fun op => allNonneg op.resList) = true)
    (hMq : (opsM.all fun op => allNonneg op.resList) = true)
    (hHq : (opsH.all fun op => allNonneg op.resList) = true) :
    0 ≤ (CPU.run availableCPU opsC).1 ∧
    0 ≤ (Memory.run availableMemory opsM).1 ∧
    0 ≤ (Hugepages.run sH opsH).1.availableMemory ∧
    0 ≤ (Hugepages.run sH opsH).1.availableHugePages ∧
    ∀ kv ∈ PCI.GetAvailableResources p, 0 ≤ kv.2 := by
  have hH := hp_run_fst_nonneg opsH sH hH0m hH0h hHq
  refine ⟨cpu_run_fst_nonneg opsC availableCPU hC0 hCq,
    mem_run_fst_nonneg opsM availableMemory hM0 hMq, hH.1, hH.2, ?_⟩
  intro kv hkv
  simp only [PCI.GetAvailableResources, List.mem_map] at hkv
  obtain ⟨entry, hentry, rfl⟩ := hkv
  exact Int.natCast_nonneg entry.2.length

theorem c1_nonneg_amended_witness :
    (0 : Quantity) ≤ 5 ∧
    ([SrcOp.alloc [("cpu", 9)], SrcOp.alloc [("cpu", 2)],
        SrcOp.dealloc [("cpu", 2)]].all fun op => allNonneg op.resList) = true ∧
    0 ≤ (CPU.run 5 [SrcOp.alloc [("cpu", 9)], SrcOp.alloc [("cpu", 2)],
        SrcOp.dealloc [("cpu", 2)]]).1 ∧
    0 ≤ (Memory.run 5 [SrcOp.alloc [("memory", 4)]]).1 ∧
    0 ≤ (Hugepages.run ⟨6, 3⟩ [SrcOp.alloc [("memory", 4), ("hugepages", 2)]]).1.availableMemory ∧
    0 ≤ (Hugepages.run ⟨6, 3⟩ [SrcOp.alloc [("memory", 4), ("hugepages", 2)]]).1.availableHugePages ∧
    ∀ kv ∈ PCI.GetAvailableResources [("gpu.nvidia/a100", [⟨0, 1, 2, 3⟩])], 0 ≤ kv.2 := by
  have h := c1_nonneg_amended 5 5 ⟨6, 3⟩ [("gpu.nvidia/a100", [⟨0, 1, 2, 3⟩])]
    [SrcOp.alloc [("cpu", 9)], SrcOp.alloc [("cpu", 2)], SrcOp.dealloc [("cpu", 2)]]
    [SrcOp.alloc [("memory", 4)]]
    [SrcOp.alloc [("memory", 4), ("hugepages", 2)]]
    (by decide) (by decide) (by decide) (by decide)
    (by decide) (by decide) (by decide)
  exact ⟨by decide, by decide, h.1, h.2.1, h.2.2.1, h.2.2.2.1, h.2.2.2.2⟩

theorem keyVal_nil (name : RName) : keyVal name [] = 0 := rfl

theorem cpu_alloc_ok (a a2 : Quantity) (req charged : ResourceList)
    (h : CPU.Allocate a req = (a2, .ok charged)) :
    a2 = a - keyVal "cpu" charged := by
  unfold CPU.Allocate at h
  cases hq : getQ req "cpu" with
  | none =>
    rw [hq] at h
    obtain ⟨h1, h2⟩ := Prod.mk.injEq .. ▸ h
    obtain rfl := h1
    cases h2
    simp [keyVal, getQ]
  | some cpu =>
    rw [hq] at h
    by_cases hneg : a - cpu < 0
    · simp [hneg] at h
    · simp only [hneg, if_false] at h
      obtain ⟨h1, h2⟩ := Prod.mk.injEq .. ▸ h
      cases h2
      simp [keyVal, getQ, ← h1]

theorem cpu_run_acct : ∀ (ops : List SrcOp) (a : Quantity),
    (CPU.run a ops).2.1 = true →
    (CPU.run a ops).1 =
      a + ((deallocLists ops).map (keyVal "cpu")).sum
        - (((CPU.run a ops).2.2).map (keyVal "cpu")).sum
  | [], a, _ => by simp [CPU.run, deallocLists]
  | .alloc req :: rest, a, hok => by
    rcases h : CPU.Allocate a req with ⟨a2, r⟩
    cases r with
    | error e =>
      rw [show CPU.run a (.alloc req :: rest) =
          ((CPU.run a2 rest).1, false, (CPU.run a2 rest).2.2) by simp [CPU.run, h]] at hok
      cases hok
    | ok charged =>
      have hrun : CPU.run a (.alloc req :: rest) =
          ((CPU.run a2 rest).1, (CPU.run a2 rest).2.1, charged :: (CPU.run a2 rest).2.2) := by
        simp [CPU.run, h]
      rw [hrun] at hok ⊢
      have ih := cpu_run_acct rest a2 hok
      rw [show deallocLists (.alloc req :: rest) = deallocLists rest by simp [deallocLists]]
      simp only [List.map_cons, List.sum_cons]
      rw [ih, cpu_alloc_ok a a2 req charged h]
      ring
  | .dealloc res :: rest, a, hok => by
    have hrun : CPU.run a (.dealloc res :: rest) =
        CPU.run (CPU.Deallocate a res).1 rest := by
      simp [CPU.run]
    rw [hrun] at hok ⊢
    have ih := cpu_run_acct rest (CPU.Deallocate a res).1 hok
    rw [show deallocLists (.dealloc res :: rest) = res :: deallocLists rest by
      simp [deallocLists]]
    simp only [List.map_cons, List.sum_cons]
    rw [ih, cpu_dealloc_fst]
    have : keyVal "cpu" res = (getQ res "cpu").getD 0 := rfl
    rw [← this]
    ring

theorem mem_alloc_ok (a a2 : Quantity) (req charged : ResourceList)
    (h : Memory.Allocate a req = (a2, .ok charged)) :
    a2 = a - keyVal "memory" charged := by
  unfold Memory.Allocate at h
  cases hq : getQ req "memory" with
  | none =>
    rw [hq] at h
    obtain ⟨h1, h2⟩ := Prod.mk.injEq .. ▸ h
    obtain rfl := h1
    cases h2
    simp [keyVal, getQ]
  | some mem =>
    rw [hq] at h
    by_cases hlt : a < mem
    · simp [hlt] at h
    · simp only [hlt, if_false] at h
      obtain ⟨h1, h2⟩ := Prod.mk.injEq .. ▸ h
      cases h2
      simp [keyVal, getQ, ← h1]

theorem mem_run_acct : ∀ (ops : List SrcOp) (a : Quantity),
    (Memory.run a ops).2.1 = true →
    (Memory.run a ops).1 =
      a + ((deallocLists ops).map (keyVal "memory")).sum
        - (((Memory.run a ops).2.2).map (keyVal "memory")).sum
  | [], a, _ => by simp [Memory.run, deallocLists]
  | .alloc req :: rest, a, hok => by
    rcases h : Memory.Allocate a req with ⟨a2, r⟩
    cases r with
    | error e =>
      rw [show Memory.run a (.alloc req :: rest) =
          ((Memory.run a2 rest).1, false, (Memory.run a2 rest).2.2) by
        simp [Memory.run, h]] at hok
      cases hok
    | ok charged =>
      have hrun : Memory.run a (.alloc req :: rest) =
          ((Memory.run a2 rest).1, (Memory.run a2 rest).2.1,
            charged :: (Memory.run a2 rest).2.2) := by
        simp [Memory.run, h]
      rw [hrun] at hok ⊢
      have ih := mem_run_acct rest a2 hok
      rw [show deallocLists (.alloc req :: rest) = deallocLists rest by simp [deallocLists]]
      simp only [List.map_cons, List.sum_cons]
      rw [ih, mem_alloc_ok a a2 req charged h]
      ring
  | .dealloc res :: rest, a, hok => by
    have hrun : Memory.run a (.dealloc res :: rest) =
        Memory.run (Memory.Deallocate a res).1 rest := by
      simp [Memory.run]
    rw [hrun] at hok ⊢
    have ih := mem_run_acct rest (Memory.Deallocate a res).1 hok
    rw [show deallocLists (.dealloc res :: rest) = res :: deallocLists rest by
      simp [deallocLists]]
    simp only [List.map_cons, List.sum_cons]
    rw [ih, mem_dealloc_fst]
    have : keyVal "memory" res = (getQ res "memory").getD 0 := rfl
    rw [← this]
    ring

theorem hp_alloc_ok (s s2 : HugepagesState) (req charged : ResourceList)
    (h : Hugepages.Allocate s req = (s2, .ok charged)) :
    s2.availableMemory = s.availableMemory - keyVal "memory" charged ∧
    s2.availableHugePages = s.availableHugePages - keyVal "hugepages" charged := by
  unfold Hugepages.Allocate at h
  cases hm : getQ req "memory" with
  | none =>
    rw [hm] at h
    obtain ⟨h1, h2⟩ := Prod.mk.injEq .. ▸ h
    obtain rfl := h1
    cases h2
    simp [keyVal, getQ]
  | some mem =>
    rw [hm] at h
    by_cases hlt : s.availableMemory < mem
    · simp [hlt] at h
    · simp only [hlt, if_false] at h
      cases hh : getQ req "hugepages" with
      | none => rw [hh] at h; cases h
      | some hp2 =>
        rw [hh] at h
        by_cases hlt2 : s.availableHugePages < hp2
        · simp [hlt2] at h
        · simp only [hlt2, if_false] at h
          obtain ⟨h1, h2⟩ := Prod.mk.injEq .. ▸ h
          cases h2
          constructor
          · rw [← h1]
            simp [keyVal, getQ]
          · rw [← h1]
            simp [keyVal, getQ]

theorem hp_run_acct : ∀ (ops : List SrcOp) (s : HugepagesState),
    (Hugepages.run s ops).2.1 = true →
    (Hugepages.run s ops).1.availableMemory =
      s.availableMemory + ((deallocLists ops).map (keyVal "memory")).sum
        - (((Hugepages.run s ops).2.2).map (keyVal "memory")).sum ∧
    (Hugepages.run s ops).1.availableHugePages =
      s.availableHugePages + ((deallocLists ops).map (keyVal "hugepages")).sum
        - (((Hugepages.run s ops).2.2).map (keyVal "hugepages")).sum
  | [], s, _ => by simp [Hugepages.run, deallocLists]
  | .alloc req :: rest, s, hok => by
    rcases h : Hugepages.Allocate s req with ⟨s2, r⟩
    cases r with
    | error e =>
      rw [show Hugepages.run s (.alloc req :: rest) =
          ((Hugepages.run s2 rest).1, false, (Hugepages.run s2 rest).2.2) by
        simp [Hugepages.run, h]] at hok
      cases hok
    | ok charged =>
      have hrun : Hugepages.run s (.alloc req :: rest) =
          ((Hugepages.run s2 rest).1, (Hugepages.run s2 rest).2.1,
            charged :: (Hugepages.run s2 rest).2.2) := by
        simp [Hugepages.run, h]
      rw [hrun] at hok ⊢
      have ih := hp_run_acct rest s2 hok
      have ha := hp_alloc_ok s s2 req charged h
      rw [show deallocLists (.alloc req :: rest) = deallocLists rest by simp [deallocLists]]
      simp only [List.map_cons, List.sum_cons]
      constructor
      · rw [ih.1, ha.1]
        ring
      · rw [ih.2, ha.2]
        ring
  | .dealloc res :: rest, s, hok => by
    have hrun : Hugepages.run s (.dealloc res :: rest) =
        Hugepages.run (Hugepages.Deallocate s res).1 rest := by
      simp [Hugepages.run]
    rw [hrun] at hok ⊢
    have ih := hp_run_acct rest (Hugepages.Deallocate s res).1 hok
    have hd := hp_dealloc_fst s res
    rw [show deallocLists (.dealloc res :: rest) = res :: deallocLists rest by
      simp [deallocLists]]
    simp only [List.map_cons, List.sum_cons]
    have hkm : keyVal "memory" res = (getQ res "memory").getD 0 := rfl
    have hkh : keyVal "hugepages" res = (getQ res "hugepages").getD 0 := rfl
    constructor
    · rw [ih.1, hd.1, ← hkm]
      ring
    · rw [ih.2, hd.2, ← hkh]
      ring

/-- C7: a call sequence against the CPU, Memory or Hugepages source in which
every Allocate succeeded and the deallocated lists are exactly the charged
lists of the Allocates (as a multiset) restores the available resources of
the source to their initial snapshot. -/
theorem c7_alloc_dealloc_roundtrip
    (availableCPU availableMemory : Quantity) (sH : HugepagesState)
    (opsC opsM opsH : List SrcOp)
    (hokC : (CPU.run availableCPU opsC).2.1 = true)
    (hpermC : ((CPU.run availableCPU opsC).2.2).Perm (deallocLists opsC))
    (hokM : (Memory.run availableMemory opsM).2.1 = true)
    (hpermM : ((Memory.run availableMemory opsM).2.2).Perm (deallocLists opsM))
    (hokH : (Hugepages.run sH opsH).2.1 = true)
    (hpermH : ((Hugepages.run sH opsH).2.2).Perm (deallocLists opsH)) :
    CPU.GetAvailableResources (CPU.run availableCPU opsC).1 =
      CPU.GetAvailableResources availableCPU ∧
    Memory.GetAvailableResources (Memory.run availableMemory opsM).1 =
      Memory.GetAvailableResources availableMemory ∧
    Hugepages.GetAvailableResources (Hugepages.run sH opsH).1 =
      Hugepages.GetAvailableResources sH := by
  have hsumC : (((CPU.run availableCPU opsC).2.2).map (keyVal "cpu")).sum =
      ((deallocLists opsC).map (keyVal "cpu")).sum :=
    (hpermC.map (keyVal "cpu")).sum_eq
  have hsumM : (((Memory.run availableMemory opsM).2.2).map (keyVal "memory")).sum =
      ((deallocLists opsM).map (keyVal "memory")).sum :=
    (hpermM.map (keyVal "memory")).sum_eq
  have hsumHm : (((Hugepages.run sH opsH).2.2).map (keyVal "memory")).sum =
      ((deallocLists opsH).map (keyVal "memory")).sum :=
    (hpermH.map (keyVal "memory")).sum_eq
  have hsumHh : (((Hugepages.run sH opsH).2.2).map (keyVal "hugepages")).sum =
      ((deallocLists opsH).map (keyVal "hugepages")).sum :=
    (hpermH.map (keyVal "hugepages")).sum_eq
  have hC := cpu_run_acct opsC availableCPU hokC
  have hM := mem_run_acct opsM availableMemory hokM
  have hH := hp_run_acct opsH sH hokH
  refine ⟨?_, ?_, ?_⟩
  · rw [CPU.GetAvailableResources, CPU.GetAvailableResources, hC, hsumC]
    simp
  · rw [Memory.GetAvailableResources, Memory.GetAvailableResources, hM, hsumM]
    simp
  · rw [Hugepages.GetAvailableResources, Hugepages.GetAvailableResources,
      hH.1, hH.2, hsumHm, hsumHh]
    simp

theorem c7_alloc_dealloc_roundtrip_witness :
    (CPU.run 10 [SrcOp.alloc [("cpu", 4)], SrcOp.dealloc [("cpu", 4)]]).2.1 = true ∧
    ((CPU.run 10 [SrcOp.alloc [("cpu", 4)], SrcOp.dealloc [("cpu", 4)]]).2.2).Perm
      (deallocLists [SrcOp.alloc [("cpu", 4)], SrcOp.dealloc [("cpu", 4)]]) ∧
    (Memory.run 9 [SrcOp.alloc [("memory", 5)], SrcOp.dealloc [("memory", 5)]]).2.1 = true ∧
    ((Memory.run 9 [SrcOp.alloc [("memory", 5)], SrcOp.dealloc [("memory", 5)]]).2.2).Perm
      (deallocLists [SrcOp.alloc [("memory", 5)], SrcOp.dealloc [("memory", 5)]]) ∧
    (Hugepages.run ⟨8, 4⟩ [SrcOp.alloc [("memory", 4), ("hugepages", 2)],
        SrcOp.dealloc [("memory", 4), ("hugepages", 2)]]).2.1 = true ∧
    ((Hugepages.run ⟨8, 4⟩ [SrcOp.alloc [("memory", 4), ("hugepages", 2)],
        SrcOp.dealloc [("memory", 4), ("hugepages", 2)]]).2.2).Perm
      (deallocLists [SrcOp.alloc [("memory", 4), ("hugepages", 2)],
        SrcOp.dealloc [("memory", 4), ("hugepages", 2)]]) ∧
    CPU.GetAvailableResources
        (CPU.run 10 [SrcOp.alloc [("cpu", 4)], SrcOp.dealloc [("cpu", 4)]]).1 =
      CPU.GetAvailableResources 10 ∧
    Memory.GetAvailableResources
        (Memory.run 9 [SrcOp.alloc [("memory", 5)], SrcOp.dealloc [("memory", 5)]]).1 =
      Memory.GetAvailableResources 9 ∧
    Hugepages.GetAvailableResources
        (Hugepages.run ⟨8, 4⟩ [SrcOp.alloc [("memory", 4), ("hugepages", 2)],
          SrcOp.dealloc [("memory", 4), ("hugepages", 2)]]).1 =
      Hugepages.GetAvailableResources ⟨8, 4⟩ := by
  have h := c7_alloc_dealloc_roundtrip 10 9 ⟨8, 4⟩
    [SrcOp.alloc [("cpu", 4)], SrcOp.dealloc [("cpu", 4)]]
    [SrcOp.alloc [("memory", 5)], SrcOp.dealloc [("memory", 5)]]
    [SrcOp.alloc [("memory", 4), ("hugepages", 2)],
      SrcOp.dealloc [("memory", 4), ("hugepages", 2)]]
    rfl (List.Perm.refl _) rfl (List.Perm.refl _) rfl (List.Perm.refl _)
  exact ⟨rfl, List.Perm.refl _, rfl, List.Perm.refl _, rfl, List.Perm.refl _,
    h.1, h.2.1, h.2.2⟩
